import Mathlib

set_option maxRecDepth 100000

/-!
Verification of the conda-constructor core against its specification.

The development shallowly embeds the two source files:
  * constructor/shar.py  — header rendering (get_header), repodata synthesis
    (add_repodata / create) and the final installer concatenation (create);
  * constructor/fcp.py   — the package-set state machine (check_duplicates,
    move_python_first, check_dists, parse_packages, handle_packages, fetch).

Strings are modelled as List Char (the header is ASCII by construction:
the template is shell text and the license is read with read_ascii_only,
so the Python len, which counts characters, equals the byte length).
Machine integers do not occur; every size is a Nat.
-/

/- ## Generic string machinery (Python str helpers) -/

/-- Characters Python treats as whitespace for str.strip / \S. -/
def isWs (c : Char) : Bool :=
  c = ' ' || c = '\t' || c = '\n' || c = '\x0d' || c = '\x0b' || c = '\x0c'

/-- Fuel-indexed model of Python str.replace: replaces every non-overlapping
occurrence of pat, scanning left to right.  The fuel argument makes the
recursion structural; replaceAll instantiates it with the string length,
which is enough fuel whenever pat is nonempty. -/
def replaceAllF (pat rep : List Char) : Nat → List Char → List Char
  | 0, s => s
  | _ + 1, [] => []
  | fuel + 1, c :: rest =>
    if pat.isPrefixOf (c :: rest) then
      rep ++ replaceAllF pat rep fuel ((c :: rest).drop pat.length)
    else
      c :: replaceAllF pat rep fuel rest

/-- Count of the non-overlapping occurrences of pat that replaceAllF rewrites,
with the same fuel discipline. -/
def countOccF (pat : List Char) : Nat → List Char → Nat
  | 0, _ => 0
  | _ + 1, [] => 0
  | fuel + 1, c :: rest =>
    if pat.isPrefixOf (c :: rest) then
      countOccF pat fuel ((c :: rest).drop pat.length) + 1
    else
      countOccF pat fuel rest

/-- Python s.replace(pat, rep) for a nonempty pattern. -/
def pyReplace (s pat rep : List Char) : List Char :=
  replaceAllF pat rep s.length s

/-- Number of non-overlapping occurrences of pat in s (as str.replace counts). -/
def countOcc (s pat : List Char) : Nat :=
  countOccF pat s.length s

/-- Decimal digits of n, most significant first; empty for 0 (fuel-indexed). -/
def decAux : Nat → Nat → List Char
  | 0, _ => []
  | fuel + 1, n =>
    if n = 0 then [] else decAux fuel (n / 10) ++ [Nat.digitChar (n % 10)]

/-- Python str(n) for a Nat. -/
def decRepr (n : Nat) : List Char :=
  if n = 0 then ['0'] else decAux n n

/-- Python '%0wd' % n: decimal representation of n, left padded with zeros to
width w (wider numbers are kept unpadded, as in Python). -/
def padZero (w n : Nat) : List Char :=
  List.replicate (w - (decRepr n).length) '0' ++ decRepr n

/-- Character list of a string literal. -/
def chars (s : String) : List Char := s.data

/- ## shar.py: get_header numeric-substitution phase (lines 65-78)

get_header first performs the content substitutions (preprocess,
fill_template, @LINES@, @CHANNELS@); the claims under study concern the
numeric phase that follows, so the text produced by the content phase enters
as the parameter data0.  E and T stand for getsize(conda_exec) and
getsize(tarball). -/

/-- Placeholder for the executable size (20 characters). -/
def firstPayloadPh : List Char := chars "@FIRST_PAYLOAD_SIZE@"

/-- Placeholder for the header's own size (18 characters). -/
def nonPayloadPh : List Char := chars "@NON_PAYLOAD_SIZE@"

/-- Placeholder for the total installer size (18 characters). -/
def totalSizePh : List Char := chars "@TOTAL_SIZE_BYTES@"

/-- Placeholder for the payload offset (22 characters). -/
def payloadOffsetPh : List Char := chars "@PAYLOAD_OFFSET_BYTES@"

/-- Placeholder for the tarball size (20 characters). -/
def tarballSizePh : List Char := chars "@TARBALL_SIZE_BYTES@"

/-- data.replace('@FIRST_PAYLOAD_SIZE@', '%020d' % getsize(conda_exec)). -/
def sharD1 (data0 : List Char) (E : Nat) : List Char :=
  pyReplace data0 firstPayloadPh (padZero 20 E)

/-- data.replace('@NON_PAYLOAD_SIZE@', '%018d' % len(data)) — the length that
is substituted is the length after the first numeric substitution. -/
def sharD2 (data0 : List Char) (E : Nat) : List Char :=
  pyReplace (sharD1 data0 E) nonPayloadPh (padZero 18 (sharD1 data0 E).length)

/-- payload_offset = len(data) + getsize(conda_exec). -/
def payload_offset (data0 : List Char) (E : Nat) : Nat :=
  (sharD2 data0 E).length + E

/-- n = payload_offset + getsize(tarball): the total size the header embeds. -/
def total_size (data0 : List Char) (E T : Nat) : Nat :=
  payload_offset data0 E + T

/-- data.replace('@TOTAL_SIZE_BYTES@', str(n)) — per the source comment this
replacement is deliberately NOT zero padded. -/
def sharD3 (data0 : List Char) (E T : Nat) : List Char :=
  pyReplace (sharD2 data0 E) totalSizePh (decRepr (total_size data0 E T))

/-- data.replace('@PAYLOAD_OFFSET_BYTES@', '%022d' % payload_offset). -/
def sharD4 (data0 : List Char) (E T : Nat) : List Char :=
  pyReplace (sharD3 data0 E T) payloadOffsetPh (padZero 22 (payload_offset data0 E))

/-- data.replace('@TARBALL_SIZE_BYTES@', '%020d' % getsize(tarball)): the final
rendered header text. -/
def sharD5 (data0 : List Char) (E T : Nat) : List Char :=
  pyReplace (sharD4 data0 E T) tarballSizePh (padZero 20 T)

/-- The assertion closing get_header:
assert len(data) + getsize(conda_exec) + getsize(tarball) == n. -/
def shar_assert_check (data0 : List Char) (E T : Nat) : Bool :=
  (sharD5 data0 E T).length + E + T == total_size data0 E T

/-- The final write loop of create (shar.py lines 171-179): header bytes, then
the executable, then the tarball, streamed to the output in bounded chunks —
the produced file is exactly the concatenation.  The header is ASCII, so
encoding maps each character to one byte. -/
def assemble (header : List Char) (execBytes tarBytes : List Nat) : List Nat :=
  header.map Char.toNat ++ execBytes ++ tarBytes

/- ## fcp.py: the package-set state machine -/

/-- Splits s at the last occurrence of ch: some (before, after) with
s = before ++ [ch] ++ after and ch not in after; none when ch does not occur. -/
def splitLastChar? (ch : Char) (s : List Char) : Option (List Char × List Char) :=
  let aft := s.reverse.takeWhile (fun c => c ≠ ch)
  if aft.length = s.length then none
  else some (s.take (s.length - aft.length - 1), aft.reverse)

/-- Modelled from the spec: name_dist (imported from constructor.install, whose
source is not under src) returns the logical package name of a Dist filename —
the Dist is (name, version, build, archive extension), so the name is the
filename with the archive extension and the last two dash-separated fields
removed.  All fcp definitions below take the name function as an explicit
parameter; this definition instantiates it for concrete computations. -/
def name_dist_spec (fn : List Char) : List Char :=
  let base :=
    if (chars ".tar.bz2").isSuffixOf fn then fn.take (fn.length - 8)
    else if (chars ".conda").isSuffixOf fn then fn.take (fn.length - 6)
    else fn
  match splitLastChar? '-' base with
  | none => base
  | some (b1, _) =>
    match splitLastChar? '-' b1 with
    | none => b1
    | some (b2, _) => b2

/-- check_duplicates (fcp.py lines 61-69): groups the working list by logical
name and exits on the first name carrying more than one filename, reporting
that name together with every one of its filenames. -/
def check_duplicates (nameD : List Char → List Char) (dists : List (List Char)) :
    Except (List Char × List (List Char)) Unit :=
  match (dists.map nameD).find?
      (fun n => 1 < (dists.filter (fun d => nameD d == n)).length) with
  | some n => Except.error (n, dists.filter (fun d => nameD d == n))
  | none => Except.ok ()

/-- move_python_first (fcp.py lines 124-129): the first entry named python is
removed from its position and reinserted at index 0. -/
def move_python_first (nameD : List Char → List Char) (dists : List (List Char)) :
    List (List Char) :=
  match dists.find? (fun d => nameD d == chars "python") with
  | some d => d :: dists.erase d
  | none => dists

/-- The three ways check_dists can abort the build. -/
inductive CheckDistsError
  | no_packages
  | duplicates (n : List Char) (files : List (List Char))
  | python_first_assertion
deriving DecidableEq

/-- check_dists (fcp.py lines 144-148): empty-set exit, duplicate check, then
assert name_dist(dists[0]) == 'python' — the assertion is unconditional. -/
def check_dists (nameD : List Char → List Char) (dists : List (List Char)) :
    Except CheckDistsError Unit :=
  match dists with
  | [] => Except.error CheckDistsError.no_packages
  | d :: _ =>
    match check_duplicates nameD dists with
    | Except.error (n, fs) => Except.error (CheckDistsError.duplicates n fs)
    | Except.ok () =>
      if nameD d == chars "python" then Except.ok ()
      else Except.error CheckDistsError.python_first_assertion

/-- Python string comparison on character lists (lexicographic by code point),
as used by dists.sort(). -/
def str_le : List Char → List Char → Bool
  | [], _ => true
  | _ :: _, [] => false
  | a :: as, b :: bs => if a = b then str_le as bs else decide (a < b)

/-- The finalization tail of fcp.main (lines 210-221): sort unless dependency
order was requested, move python first, then check_dists; the finalized list is
returned when the checks pass. -/
def finalize_dists (nameD : List Char → List Char) (dep_order : Bool)
    (dists : List (List Char)) : Except CheckDistsError (List (List Char)) :=
  let ds := if dep_order then dists else dists.mergeSort str_le
  let ds := move_python_first nameD ds
  match check_dists nameD ds with
  | Except.ok () => Except.ok ds
  | Except.error e => Except.error e

/- ## fcp.py: parse_packages (lines 88-106) -/

/-- Lowercase hexadecimal digit, the character class [0-9a-f] of url_pat. -/
def isHexLower (c : Char) : Bool :=
  ('0' ≤ c && c ≤ '9') || ('a' ≤ c && c ≤ 'f')

/-- Character admissible in the fn group of url_pat: [^\s#/]. -/
def isFnChar (c : Char) : Bool :=
  !isWs c && c ≠ '#' && c ≠ '/'

/-- The optional checksum tail ([#](?P<md5>[0-9a-f]\x7b32\x7d))?$ of url_pat:
either nothing remains, or a hash mark followed by exactly 32 lowercase
hexadecimal digits. -/
def matchMd5Tail : List Char → Option (Option (List Char))
  | [] => some none
  | c :: rest =>
    if c = '#' then
      if rest.length == 32 && rest.all isHexLower then some (some rest) else none
    else none

/-- The fn group then the checksum tail: fn is the maximal nonempty run of
admissible characters (the greedy [^\s#/]+ cannot backtrack past a '#'). -/
def matchFnTail (t : List Char) : Option (List Char × Option (List Char)) :=
  let fn := t.takeWhile isFnChar
  if fn.isEmpty then none
  else (matchMd5Tail (t.drop fn.length)).map (fun md5 => (fn, md5))

/-- url_pat.match on a stripped line.  The optional greedy url group \S+/ must
extend through the last slash of the line (the fn group excludes '/'), needs at
least one \S character before that slash, and must itself be whitespace free;
without any slash the whole line is handed to the fn/checksum part. -/
def url_pat_match (s : List Char) :
    Option (Option (List Char) × List Char × Option (List Char)) :=
  match splitLastChar? '/' s with
  | none => (matchFnTail s).map (fun p => (none, p.1, p.2))
  | some (before, aft) =>
    let u := before ++ ['/']
    if 2 ≤ u.length && u.all (fun c => !isWs c) then
      (matchFnTail aft).map (fun p => (some u, p.1, p.2))
    else none

/-- Python line.strip(). -/
def pyStrip (s : List Char) : List Char :=
  ((s.dropWhile isWs).reverse.dropWhile isWs).reverse

/-- The '=' to '-' normalization applied to the fn group. -/
def eqNorm (c : Char) : Char := if c = '=' then '-' else c

/-- fn.replace('=', '-') followed by the default-extension rule: a name not
ending in .tar.bz2 gets .tar.bz2 appended. -/
def normalize_fn (fn : List Char) : List Char :=
  let f := fn.map eqNorm
  if (chars ".tar.bz2").isSuffixOf f then f else f ++ chars ".tar.bz2"

/-- Outcome of parse_packages for one line. -/
inductive ParsedLine
  | skip
  | bad_line
  | entry (url : Option (List Char)) (fn : List Char) (md5 : Option (List Char))
deriving DecidableEq

/-- One iteration of parse_packages (fcp.py lines 94-106): strip, ignore blank
lines and lines starting with '#' or '@', match url_pat, normalize '=' and
default the extension; a non-matching line exits the build. -/
def parse_package_line (line : List Char) : ParsedLine :=
  match pyStrip line with
  | [] => ParsedLine.skip
  | c :: rest =>
    if c = '#' || c = '@' then ParsedLine.skip
    else
      match url_pat_match (c :: rest) with
      | none => ParsedLine.bad_line
      | some (u, fn, md5) => ParsedLine.entry u (normalize_fn fn) md5

/- ## fcp.py: fetch (lines 151-187)

Dists are their filenames (filename_dist on the string dists of fcp is the
Dist's filename).  The external capabilities are parameters: index is the
global channel index, urlIndex d models fetch_index((urls[d],))[d] for a Dist
with an explicit URL override, and cacheHash d is the md5 of the cached file
in the download directory when that file exists. -/

/-- A resolved package record: the channel and the authoritative md5. -/
structure PkgInfo where
  channel : List Char
  md5 : List Char
deriving DecidableEq

/-- Channel normalization: a trailing slash is appended when missing. -/
def normalized_channel (c : List Char) : List Char :=
  if c.getLast? = some '/' then c else c ++ ['/']

/-- The authoritative record for a Dist: the one-off url index when the Dist
carries a URL override, the global channel index otherwise. -/
def authoritative (index urlIndex : List Char → Option PkgInfo)
    (urls : List Char → Option (List Char)) (dist : List Char) : Option PkgInfo :=
  match urls dist with
  | some _ => urlIndex dist
  | none => index dist

/-- The (absoluteURL, checksum) pair recorded in info['_urls'] for a Dist. -/
def url_record (index urlIndex : List Char → Option PkgInfo)
    (urls : List Char → Option (List Char)) (dist : List Char) :
    Option (List Char × List Char) :=
  (authoritative index urlIndex urls dist).map
    (fun pi => (normalized_channel pi.channel ++ dist, pi.md5))

/-- What the fetch loop body does with one Dist. -/
inductive FetchOutcome
  | lookup_failure
  | checksum_mismatch
  | cache_hit (record : List Char × List Char)
  | fetch_pkg (record : List Char × List Char)
deriving DecidableEq

/-- One iteration of the fetch loop (fcp.py lines 161-187): resolve the
authoritative record, fail on a missing record, fail on an inline md5 that
disagrees with the authoritative md5, skip the fetch when the cached file
already has the authoritative hash, otherwise fetch. -/
def fetch_one (index urlIndex : List Char → Option PkgInfo)
    (urls md5s cacheHash : List Char → Option (List Char)) (dist : List Char) :
    FetchOutcome :=
  match authoritative index urlIndex urls dist with
  | none => FetchOutcome.lookup_failure
  | some pi =>
    let record := (normalized_channel pi.channel ++ dist, pi.md5)
    match md5s dist with
    | some m =>
      if m ≠ pi.md5 then FetchOutcome.checksum_mismatch
      else if cacheHash dist = some pi.md5 then FetchOutcome.cache_hit record
      else FetchOutcome.fetch_pkg record
    | none =>
      if cacheHash dist = some pi.md5 then FetchOutcome.cache_hit record
      else FetchOutcome.fetch_pkg record

/-- Observable result of running the fetch loop over the whole working list:
the accumulated info['_urls'] records, the Dists actually passed to fetch_pkg,
and the outcome that aborted the build, if any. -/
structure FetchRun where
  url_records : List (List Char × List Char)
  fetched : List (List Char)
  aborted : Option FetchOutcome
deriving DecidableEq

/-- The fetch loop (fcp.py lines 161-187).  A lookup failure aborts before the
record is appended; a checksum mismatch aborts after it (the source appends to
info['_urls'] before comparing the inline md5). -/
def fetch_loop (index urlIndex : List Char → Option PkgInfo)
    (urls md5s cacheHash : List Char → Option (List Char)) :
    List (List Char) → FetchRun
  | [] => ⟨[], [], none⟩
  | d :: ds =>
    match fetch_one index urlIndex urls md5s cacheHash d with
    | FetchOutcome.lookup_failure => ⟨[], [], some FetchOutcome.lookup_failure⟩
    | FetchOutcome.checksum_mismatch =>
      ⟨(url_record index urlIndex urls d).toList, [],
        some FetchOutcome.checksum_mismatch⟩
    | FetchOutcome.cache_hit r =>
      let rest := fetch_loop index urlIndex urls md5s cacheHash ds
      ⟨(r :: rest.url_records), rest.fetched, rest.aborted⟩
    | FetchOutcome.fetch_pkg r =>
      let rest := fetch_loop index urlIndex urls md5s cacheHash ds
      ⟨(r :: rest.url_records), d :: rest.fetched, rest.aborted⟩

/- ## shar.py: local repodata synthesis in create (lines 141-166) -/

/-- url.startswith('file://'). -/
def isFileUrl (url : List Char) : Bool :=
  (chars "file://").isPrefixOf url

/-- url.rsplit('/', 2) when the url contains at least two slashes (true of
every file:// url): some (head, subdir, fn). -/
def rsplit2 (s : List Char) : Option (List Char × List Char × List Char) :=
  match splitLastChar? '/' s with
  | none => none
  | some (r1, fn) =>
    match splitLastChar? '/' r1 with
    | none => none
    | some (r2, sd) => some (r2, sd, fn)

/-- The packages / packages.conda filename groups of one synthesized local
repodata document (the per-entry metadata values are copied verbatim from the
upstream repodata and carry no information for the claims; the keys do). -/
structure FnDict where
  packages : List (List Char)
  packages_conda : List (List Char)
deriving DecidableEq

instance : Inhabited FnDict := ⟨⟨[], []⟩⟩

/-- Python dict lookup on an ordered association list. -/
def lookupA (acc : List (List Char × FnDict)) (k : List Char) : Option FnDict :=
  (acc.find? (fun p => p.1 == k)).map Prod.snd

/-- Python dict assignment: an existing key keeps its position, a new key is
appended at the end (insertion order). -/
def updateA (acc : List (List Char × FnDict)) (k : List Char) (v : FnDict) :
    List (List Char × FnDict) :=
  if acc.any (fun p => p.1 == k) then
    acc.map (fun p => if p.1 == k then (k, v) else p)
  else acc ++ [(k, v)]

/-- One iteration of the loop over info['_urls'] (shar.py lines 142-157): a
locally sourced artifact (file:// url) registers its filename, under
packages.conda for a .conda artifact and under packages otherwise, in the
fn-dict of the subdir named by its url. -/
def addLocalUrl (acc : List (List Char × FnDict)) (url : List Char) :
    List (List Char × FnDict) :=
  if isFileUrl url then
    match rsplit2 url with
    | some (_, sd, fn) =>
      let cur := (lookupA acc sd).getD ⟨[], []⟩
      let cur :=
        if (chars ".conda").isSuffixOf fn then
          { cur with packages_conda := cur.packages_conda ++ [fn] }
        else
          { cur with packages := cur.packages ++ [fn] }
      updateA acc sd cur
    | none => acc
  else acc

/-- local_subdir_repodata after the whole loop over info['_urls']. -/
def local_subdir_repodata (urlList : List (List Char)) :
    List (List Char × FnDict) :=
  urlList.foldl addLocalUrl []

/-- The repodata documents written into the master tarball, in order (shar.py
lines 159-165): one per local subdir, plus a synthesized empty noarch document
when no local subdir was noarch. -/
def repodata_docs (urlList : List (List Char)) : List (List Char × FnDict) :=
  let locals := local_subdir_repodata urlList
  if (locals.map Prod.fst).contains (chars "noarch") then locals
  else locals ++ [(chars "noarch", ⟨[], []⟩)]

/- ## shar.py: create as a sequence of filesystem effects (lines 98-183)

Everything before the final write — preconda staging, the master tarball and
get_header — happens in the scratch directory (or in memory) and is modelled
as scratch steps; a build that aborts there has executed a proper prefix that
contains no output-path step.  The final write opens the output path directly
and streams the header and then bounded chunks of the two payloads into it;
unlink, chmod of the output and rmtree follow. -/

/-- One effect step of create, classified by what it touches. -/
inductive CStep
  | scratch
  | openOut
  | writeOut (bytes : List Nat)
  | chmodOut
deriving DecidableEq

/-- The effect trace of create: nScratch scratch-side steps (phases 1-3,
header rendering included), then open(outpath, 'wb'), the header write, one
write per 262144-byte chunk of the two payloads, then unlink(tarball),
chmod(outpath) and rmtree(tmp_dir). -/
def create_steps (nScratch : Nat) (header : List Nat) (chunks : List (List Nat)) :
    List CStep :=
  List.replicate nScratch CStep.scratch
    ++ [CStep.openOut, CStep.writeOut header]
    ++ chunks.map CStep.writeOut
    ++ [CStep.scratch, CStep.chmodOut, CStep.scratch]

/-- Content of the file at the final output path after a list of steps:
none while no file exists there, some bytes once open(… ,'wb') created it. -/
def out_step (st : Option (List Nat)) : CStep → Option (List Nat)
  | CStep.scratch => st
  | CStep.openOut => some []
  | CStep.writeOut b => st.map (fun c => c ++ b)
  | CStep.chmodOut => st

def out_after : List CStep → Option (List Nat) → Option (List Nat)
  | [], st => st
  | s :: rest, st => out_after rest (out_step st s)

/-- Output-path content after the first k steps of a create run — the state a
build failure after k steps leaves behind. -/
def out_after_prefix (nScratch : Nat) (header : List Nat)
    (chunks : List (List Nat)) (k : Nat) : Option (List Nat) :=
  out_after ((create_steps nScratch header chunks).take k) none

/-- Modelled from the spec: the header template (constructor/header.sh) is not
under src.  Per the spec the header text embeds the executable size, its own
size, the total size, the payload offset and the tarball size, so the template
carries each of the five placeholders once; the surrounding shell text is
arbitrary. -/
def header_template_spec : List Char :=
  chars "#!/bin/sh\nexe=@FIRST_PAYLOAD_SIZE@\nhdr=@NON_PAYLOAD_SIZE@\ntotal=@TOTAL_SIZE_BYTES@\noffset=@PAYLOAD_OFFSET_BYTES@\ntar=@TARBALL_SIZE_BYTES@\n"

/-- Concrete channel index used by witnesses: one record for one Dist. -/
def index_fix (d : List Char) : Option PkgInfo :=
  if d = chars "foo-1.0-0.tar.bz2" then
    some ⟨chars "https://c/linux-64", chars "aaaa"⟩
  else none

/-- Witness fixture: an always-empty lookup. -/
def lookup_none_fix (_ : List Char) : Option PkgInfo := none

/-- Witness fixture: no URL overrides / no inline checksums. -/
def str_none_fix (_ : List Char) : Option (List Char) := none

/-- Witness fixture: an inline checksum disagreeing with index_fix. -/
def md5s_bad_fix (d : List Char) : Option (List Char) :=
  if d = chars "foo-1.0-0.tar.bz2" then some (chars "bbbb") else none

/-- Witness fixture: a cached file whose hash matches index_fix. -/
def cache_good_fix (d : List Char) : Option (List Char) :=
  if d = chars "foo-1.0-0.tar.bz2" then some (chars "aaaa") else none

/- ## Lemmas: str.replace and decimal rendering -/

theorem replaceAllF_countOccF_length (pat rep : List Char) (hpat : pat ≠ []) :
    ∀ fuel s, s.length ≤ fuel →
      (replaceAllF pat rep fuel s).length + countOccF pat fuel s * pat.length
        = s.length + countOccF pat fuel s * rep.length := by
  intro fuel
  induction fuel with
  | zero =>
    intro s hs
    have hnil : s = [] := by
      cases s with
      | nil => rfl
      | cons c r => simp at hs
    subst hnil
    simp [replaceAllF, countOccF]
  | succ fuel ih =>
    intro s hs
    cases s with
    | nil => simp [replaceAllF, countOccF]
    | cons c rest =>
      by_cases hp : pat.isPrefixOf (c :: rest)
      · obtain ⟨t, ht⟩ : pat <+: (c :: rest) := List.isPrefixOf_iff_prefix.mp hp
        have hdrop : (c :: rest).drop pat.length = t := by
          rw [← ht]; exact List.drop_left pat t
        have hlen : (c :: rest).length = pat.length + t.length := by
          rw [← ht]; simp
        have hp1 : 0 < pat.length := List.length_pos.mpr hpat
        have htf : t.length ≤ fuel := by
          rw [hlen] at hs; omega
        have IH := ih t htf
        simp only [replaceAllF, countOccF, if_pos hp, hdrop, List.length_append]
        rw [hlen, Nat.add_mul, Nat.add_mul, Nat.one_mul, Nat.one_mul]
        linarith [IH]
      · have hrest : rest.length ≤ fuel := by
          simp only [List.length_cons] at hs; omega
        have IH := ih rest hrest
        simp only [replaceAllF, countOccF, if_neg hp, List.length_cons]
        linarith [IH]

/-- Length equation for Python str.replace: every occurrence of the pattern
trades its length for the replacement's length. -/
theorem pyReplace_length (s pat rep : List Char) (hpat : pat ≠ []) :
    (pyReplace s pat rep).length + countOcc s pat * pat.length
      = s.length + countOcc s pat * rep.length :=
  replaceAllF_countOccF_length pat rep hpat s.length s le_rfl

/-- A replacement of the same length as its pattern never changes the length
of the string. -/
theorem pyReplace_length_of_eq (s pat rep : List Char) (hpat : pat ≠ [])
    (hlen : rep.length = pat.length) :
    (pyReplace s pat rep).length = s.length := by
  have h := pyReplace_length s pat rep hpat
  rw [hlen] at h
  exact Nat.add_right_cancel h

theorem decAux_length_le :
    ∀ fuel n w, n ≤ fuel → n < 10 ^ w → (decAux fuel n).length ≤ w := by
  intro fuel
  induction fuel with
  | zero =>
    intro n w hn _
    have : n = 0 := by omega
    subst this
    simp [decAux]
  | succ fuel ih =>
    intro n w hn hw
    by_cases h0 : n = 0
    · subst h0; simp [decAux]
    · have hwpos : 0 < w := by
        rcases Nat.eq_zero_or_pos w with h | h
        · subst h; simp at hw; omega
        · exact h
      obtain ⟨v, rfl⟩ : ∃ v, w = v + 1 := ⟨w - 1, by omega⟩
      have hdle : n / 10 ≤ fuel := by omega
      have hdlt : n / 10 < 10 ^ v := by
        rw [Nat.div_lt_iff_lt_mul (by norm_num)]
        calc n < 10 ^ (v + 1) := hw
          _ = 10 ^ v * 10 := pow_succ 10 v
      have := ih (n / 10) v hdle hdlt
      simp only [decAux, if_neg h0, List.length_append, List.length_cons,
        List.length_nil]
      omega

/-- str(n) is at most w characters when n fits in w decimal digits. -/
theorem decRepr_length_le (n w : Nat) (hw : 0 < w) (h : n < 10 ^ w) :
    (decRepr n).length ≤ w := by
  unfold decRepr
  by_cases h0 : n = 0
  · simp [h0]; omega
  · simp only [if_neg h0]
    exact decAux_length_le n n w le_rfl h

/-- Padding to width w renders exactly w characters when n fits in w digits. -/
theorem padZero_length (w n : Nat) (h : (decRepr n).length ≤ w) :
    (padZero w n).length = w := by
  simp only [padZero, List.length_append, List.length_replicate]
  omega

/- ## C1 and C2: the header size/offset scheme -/

/-- C2 [amended]: of the five numeric substitutions, the four zero-padded ones
(executable size at width 20, header size at width 18, payload offset at width
22, tarball size at width 20) replace their placeholder by a decimal of
exactly the placeholder's byte length whenever the value fits the width, so
none of them changes the header's byte length; the total-size substitution is
exempt — it is deliberately unpadded (see the counterexample). -/
theorem c2_fixed_width_substitution_amended (data0 : List Char) (E T : Nat)
    (hE : E < 10 ^ 20) (hd1 : (sharD1 data0 E).length < 10 ^ 18)
    (hoff : payload_offset data0 E < 10 ^ 22) (hT : T < 10 ^ 20) :
    (sharD1 data0 E).length = data0.length
    ∧ (sharD2 data0 E).length = (sharD1 data0 E).length
    ∧ (sharD4 data0 E T).length = (sharD3 data0 E T).length
    ∧ (sharD5 data0 E T).length = (sharD4 data0 E T).length := by
  refine ⟨?_, ?_, ?_, ?_⟩
  · exact pyReplace_length_of_eq _ _ _ (by decide)
      (by rw [padZero_length 20 E (decRepr_length_le E 20 (by norm_num) hE)]; decide)
  · exact pyReplace_length_of_eq _ _ _ (by decide)
      (by rw [padZero_length 18 _
          (decRepr_length_le _ 18 (by norm_num) hd1)]; decide)
  · exact pyReplace_length_of_eq _ _ _ (by decide)
      (by rw [padZero_length 22 _
          (decRepr_length_le _ 22 (by norm_num) hoff)]; decide)
  · exact pyReplace_length_of_eq _ _ _ (by decide)
      (by rw [padZero_length 20 T (decRepr_length_le T 20 (by norm_num) hT)]; decide)

/-- C2 witness: the amended statement at a concrete build. -/
theorem c2_fixed_width_substitution_witness :
    ((5 : Nat) < 10 ^ 20 ∧ (sharD1 header_template_spec 5).length < 10 ^ 18
      ∧ payload_offset header_template_spec 5 < 10 ^ 22 ∧ (7 : Nat) < 10 ^ 20)
    ∧ ((sharD1 header_template_spec 5).length = header_template_spec.length
      ∧ (sharD2 header_template_spec 5).length = (sharD1 header_template_spec 5).length
      ∧ (sharD4 header_template_spec 5 7).length = (sharD3 header_template_spec 5 7).length
      ∧ (sharD5 header_template_spec 5 7).length = (sharD4 header_template_spec 5 7).length) :=
  ⟨⟨by decide, by decide, by decide, by decide⟩,
    c2_fixed_width_substitution_amended header_template_spec 5 7
      (by decide) (by decide) (by decide) (by decide)⟩

/-- C2 counterexample: at the spec-modelled template with sizes E = T = 0 —
far inside every chosen digit width — the fifth numeric substitution, of
@TOTAL_SIZE_BYTES@ by the unpadded str(total), shrinks the header (the
18-character placeholder becomes the 3-character total), contradicting the
claim that none of the five substitutions changes the header's byte length. -/
theorem c2_fixed_width_substitution_counterexample :
    (sharD3 header_template_spec 0 0).length ≠ (sharD2 header_template_spec 0).length
    ∧ (0 : Nat) < 10 ^ 20 ∧ (sharD1 header_template_spec 0).length < 10 ^ 18
    ∧ payload_offset header_template_spec 0 < 10 ^ 22 := by
  exact ⟨by decide, by decide, by decide, by decide⟩

/-- C1 [amended]: the assembled installer's byte length always equals
len(header) + E + T for the final rendered header; but the closing assertion
(and with it the agreement between that total and the embedded total-size
value) holds iff the total-size substitution left the header length unchanged:
either @TOTAL_SIZE_BYTES@ does not occur in the header at that point, or the
total's decimal representation is exactly the placeholder's 18 characters. -/
theorem c1_total_size_assert_amended (data0 : List Char) (E T : Nat)
    (hoff : payload_offset data0 E < 10 ^ 22) (hT : T < 10 ^ 20)
    (execBytes tarBytes : List Nat)
    (hE : execBytes.length = E) (hTl : tarBytes.length = T) :
    (assemble (sharD5 data0 E T) execBytes tarBytes).length
        = (sharD5 data0 E T).length + E + T
    ∧ (shar_assert_check data0 E T = true
        ↔ countOcc (sharD2 data0 E) totalSizePh = 0
          ∨ (decRepr (total_size data0 E T)).length = 18) := by
  constructor
  · simp [assemble, hE, hTl, Nat.add_assoc]
  · have h4 : (sharD4 data0 E T).length = (sharD3 data0 E T).length :=
      pyReplace_length_of_eq _ _ _ (by decide)
        (by rw [padZero_length 22 _
            (decRepr_length_le _ 22 (by norm_num) hoff)]; decide)
    have h5 : (sharD5 data0 E T).length = (sharD4 data0 E T).length :=
      pyReplace_length_of_eq _ _ _ (by decide)
        (by rw [padZero_length 20 T (decRepr_length_le T 20 (by norm_num) hT)]; decide)
    have h3 : (sharD3 data0 E T).length
          + countOcc (sharD2 data0 E) totalSizePh * totalSizePh.length
        = (sharD2 data0 E).length
          + countOcc (sharD2 data0 E) totalSizePh
            * (decRepr (total_size data0 E T)).length :=
      pyReplace_length _ _ _ (by decide)
    have hph : totalSizePh.length = 18 := by decide
    rw [hph] at h3
    have htot : total_size data0 E T = (sharD2 data0 E).length + E + T := rfl
    unfold shar_assert_check
    rw [beq_iff_eq, h5, h4]
    constructor
    · intro h
      rw [htot] at h
      have h33 : (sharD3 data0 E T).length = (sharD2 data0 E).length := by omega
      rw [h33] at h3
      have hcc : countOcc (sharD2 data0 E) totalSizePh * 18
          = countOcc (sharD2 data0 E) totalSizePh
            * (decRepr (total_size data0 E T)).length :=
        Nat.add_left_cancel h3
      rcases mul_eq_mul_left_iff.mp hcc with h18 | h0
      · exact Or.inr h18.symm
      · exact Or.inl h0
    · intro h
      have hcc : countOcc (sharD2 data0 E) totalSizePh * 18
          = countOcc (sharD2 data0 E) totalSizePh
            * (decRepr (total_size data0 E T)).length := by
        rcases h with h0 | h18
        · rw [h0]; simp
        · rw [h18]
      rw [← hcc] at h3
      have h33 : (sharD3 data0 E T).length = (sharD2 data0 E).length := by omega
      rw [h33, htot]

/-- C1 witness: the amended statement at a concrete build (the template has
the total-size placeholder, the total has 3 digits, so the assertion is
equivalent to False there, and indeed fails: see the counterexample). -/
theorem c1_total_size_assert_witness :
    (payload_offset header_template_spec 5 < 10 ^ 22 ∧ (7 : Nat) < 10 ^ 20
      ∧ ([1, 2, 3, 4, 5] : List Nat).length = 5
      ∧ ([1, 2, 3, 4, 5, 6, 7] : List Nat).length = 7)
    ∧ ((assemble (sharD5 header_template_spec 5 7) [1, 2, 3, 4, 5]
          [1, 2, 3, 4, 5, 6, 7]).length
        = (sharD5 header_template_spec 5 7).length + 5 + 7
      ∧ (shar_assert_check header_template_spec 5 7 = true
          ↔ countOcc (sharD2 header_template_spec 5) totalSizePh = 0
            ∨ (decRepr (total_size header_template_spec 5 7)).length = 18)) :=
  ⟨⟨by decide, by decide, by decide, by decide⟩,
    c1_total_size_assert_amended header_template_spec 5 7 (by decide) (by decide)
      [1, 2, 3, 4, 5] [1, 2, 3, 4, 5, 6, 7] (by decide) (by decide)⟩

/- ## Lemmas: the duplicate check and finalization -/

theorem length_filter_name (nameD : List Char → List Char) (n : List Char)
    (dists : List (List Char)) :
    (dists.filter (fun d => nameD d == n)).length
      = ((dists.map nameD).filter (fun x => x == n)).length := by
  induction dists with
  | nil => rfl
  | cons d ds ih =>
    simp only [List.filter_cons, List.map_cons]
    by_cases h : (nameD d == n) = true
    · simp [h, ih]
    · simp [h, ih]

theorem filter_beq_le_one_iff_nodup (l : List (List Char)) :
    (∀ a ∈ l, (l.filter (fun x => x == a)).length ≤ 1) ↔ l.Nodup := by
  induction l with
  | nil => simp
  | cons x xs ih =>
    rw [List.nodup_cons, ← ih]
    constructor
    · intro h
      constructor
      · intro hmem
        have h1 := h x (List.mem_cons_self x xs)
        rw [List.filter_cons, if_pos (beq_self_eq_true x)] at h1
        simp only [List.length_cons] at h1
        have hfil : x ∈ xs.filter (fun b => b == x) :=
          List.mem_filter.mpr ⟨hmem, beq_self_eq_true x⟩
        have : 0 < (xs.filter (fun b => b == x)).length :=
          List.length_pos.mpr (fun he => by rw [he] at hfil; simp at hfil)
        omega
      · intro a ha
        have h2 := h a (List.mem_cons_of_mem x ha)
        rw [List.filter_cons] at h2
        by_cases hx : (x == a) = true
        · rw [if_pos hx] at h2
          simp only [List.length_cons] at h2
          omega
        · rw [if_neg hx] at h2
          exact h2
    · rintro ⟨hnotmem, hxs⟩ a ha
      rw [List.filter_cons]
      rcases List.mem_cons.mp ha with rfl | ha'
      · rw [if_pos (beq_self_eq_true a)]
        have hnil : xs.filter (fun b => b == a) = [] := by
          rw [List.filter_eq_nil_iff]
          intro b hb hbeq
          exact hnotmem (beq_iff_eq.mp hbeq ▸ hb)
        rw [hnil]
        simp
      · by_cases hx : (x == a) = true
        · exact absurd ((beq_iff_eq.mp hx) ▸ ha') hnotmem
        · rw [if_neg hx]
          exact hxs a ha'

theorem check_duplicates_ok_iff (nameD : List Char → List Char)
    (dists : List (List Char)) :
    check_duplicates nameD dists = Except.ok () ↔ (dists.map nameD).Nodup := by
  unfold check_duplicates
  rcases hfind : (dists.map nameD).find?
      (fun n => decide (1 < (dists.filter (fun d => nameD d == n)).length))
    with _ | n
  · rw [List.find?_eq_none] at hfind
    simp only [decide_eq_true_eq] at hfind
    constructor
    · intro _
      rw [← filter_beq_le_one_iff_nodup]
      intro a ha
      have h := hfind a ha
      rw [length_filter_name] at h
      omega
    · intro _; rfl
  · constructor
    · intro h; exact absurd h (by simp)
    · intro hnodup
      exfalso
      have hmem := List.mem_of_find?_eq_some hfind
      have hp := List.find?_some hfind
      rw [decide_eq_true_eq, length_filter_name] at hp
      have h := (filter_beq_le_one_iff_nodup (dists.map nameD)).mpr hnodup n hmem
      omega

/-- Unfolding of check_dists on a non-empty list. -/
theorem check_dists_cons (nameD : List Char → List Char) (d : List Char)
    (tl : List (List Char)) :
    check_dists nameD (d :: tl) =
      match check_duplicates nameD (d :: tl) with
      | Except.error (n, fs) => Except.error (CheckDistsError.duplicates n fs)
      | Except.ok _ =>
        if nameD d == chars "python" then Except.ok ()
        else Except.error CheckDistsError.python_first_assertion := rfl

theorem check_dists_cons_ok (nameD : List Char → List Char) (d : List Char)
    (tl : List (List Char))
    (hcd : check_duplicates nameD (d :: tl) = Except.ok ()) :
    check_dists nameD (d :: tl) =
      if nameD d == chars "python" then Except.ok ()
      else Except.error CheckDistsError.python_first_assertion := by
  rw [check_dists_cons, hcd]

theorem check_dists_cons_dup (nameD : List Char → List Char) (d : List Char)
    (tl : List (List Char)) (n : List Char) (fs : List (List Char))
    (hcd : check_duplicates nameD (d :: tl) = Except.error (n, fs)) :
    check_dists nameD (d :: tl) = Except.error (CheckDistsError.duplicates n fs) := by
  rw [check_dists_cons, hcd]

theorem check_dists_ok (nameD : List Char → List Char) (dists : List (List Char))
    (h : check_dists nameD dists = Except.ok ()) :
    ∃ d tl, dists = d :: tl ∧ check_duplicates nameD dists = Except.ok ()
      ∧ nameD d = chars "python" := by
  cases dists with
  | nil => exact absurd h (by simp [check_dists])
  | cons d tl =>
    rcases hcd : check_duplicates nameD (d :: tl) with p | u
    · rcases p with ⟨n, fs⟩
      rw [check_dists_cons_dup nameD d tl n fs hcd] at h
      exact absurd h (by simp)
    · cases u
      rw [check_dists_cons_ok nameD d tl hcd] at h
      refine ⟨d, tl, rfl, rfl, ?_⟩
      by_cases hn : (nameD d == chars "python") = true
      · exact beq_iff_eq.mp hn
      · rw [if_neg hn] at h
        exact absurd h (by simp)

/-- Unfolding of finalize_dists. -/
theorem finalize_dists_eq (nameD : List Char → List Char) (dep_order : Bool)
    (dists : List (List Char)) :
    finalize_dists nameD dep_order dists =
      match check_dists nameD (move_python_first nameD
          (if dep_order then dists else dists.mergeSort str_le)) with
      | Except.ok _ => Except.ok (move_python_first nameD
          (if dep_order then dists else dists.mergeSort str_le))
      | Except.error e => Except.error e := rfl

theorem finalize_dists_ok (nameD : List Char → List Char) (dep_order : Bool)
    (dists out : List (List Char))
    (h : finalize_dists nameD dep_order dists = Except.ok out) :
    out = move_python_first nameD (if dep_order then dists else dists.mergeSort str_le)
    ∧ check_dists nameD out = Except.ok () := by
  rw [finalize_dists_eq] at h
  rcases hcd : check_dists nameD
      (move_python_first nameD (if dep_order then dists else dists.mergeSort str_le))
    with e | u
  · rw [hcd] at h
    exact absurd h (by simp)
  · rw [hcd] at h
    cases u
    simp only [Except.ok.injEq] at h
    subst h
    exact ⟨rfl, hcd⟩

/- ## C3, C4, C7: finalization invariants -/

/-- C4: a finalized PackageSet has pairwise distinct logical names; the
duplicate check succeeds exactly when the names are duplicate free, and on
failure it reports a name together with the complete list of its colliding
filenames (more than one of them). -/
theorem c4_unique_logical_names (nameD : List Char → List Char)
    (dists : List (List Char)) :
    (check_duplicates nameD dists = Except.ok () ↔ (dists.map nameD).Nodup)
    ∧ (∀ n files, check_duplicates nameD dists = Except.error (n, files) →
        files = dists.filter (fun d => nameD d == n) ∧ 1 < files.length)
    ∧ (∀ dep_order out, finalize_dists nameD dep_order dists = Except.ok out →
        (out.map nameD).Nodup) := by
  refine ⟨check_duplicates_ok_iff nameD dists, ?_, ?_⟩
  · intro n files h
    unfold check_duplicates at h
    rcases hfind : (dists.map nameD).find?
        (fun m => decide (1 < (dists.filter (fun d => nameD d == m)).length))
      with _ | m
    · rw [hfind] at h
      exact absurd h (by simp)
    · rw [hfind] at h
      simp only [Except.error.injEq, Prod.mk.injEq] at h
      obtain ⟨rfl, rfl⟩ := h
      have hp := List.find?_some hfind
      rw [decide_eq_true_eq] at hp
      exact ⟨rfl, hp⟩
  · intro dep_order out h
    obtain ⟨-, hchk⟩ := finalize_dists_ok nameD dep_order dists out h
    obtain ⟨d, tl, -, hdup, -⟩ := check_dists_ok nameD out hchk
    exact (check_duplicates_ok_iff nameD out).mp hdup

/-- C4 witness: the characterization at a concrete duplicate-carrying list and
a concrete clean list. -/
theorem c4_unique_logical_names_witness :
    (check_duplicates name_dist_spec
        [chars "foo-1.0-0.tar.bz2", chars "foo-2.0-0.tar.bz2"]
      = Except.error (chars "foo",
          [chars "foo-1.0-0.tar.bz2", chars "foo-2.0-0.tar.bz2"]) →
      [chars "foo-1.0-0.tar.bz2", chars "foo-2.0-0.tar.bz2"]
        = [chars "foo-1.0-0.tar.bz2", chars "foo-2.0-0.tar.bz2"].filter
            (fun d => name_dist_spec d == chars "foo")
      ∧ 1 < ([chars "foo-1.0-0.tar.bz2", chars "foo-2.0-0.tar.bz2"] :
          List (List Char)).length)
    ∧ (check_duplicates name_dist_spec
        [chars "foo-1.0-0.tar.bz2", chars "foo-2.0-0.tar.bz2"] ≠ Except.ok ()) :=
  ⟨(c4_unique_logical_names name_dist_spec
      [chars "foo-1.0-0.tar.bz2", chars "foo-2.0-0.tar.bz2"]).2.1
    (chars "foo") [chars "foo-1.0-0.tar.bz2", chars "foo-2.0-0.tar.bz2"],
    fun h => by
      have := (c4_unique_logical_names name_dist_spec
        [chars "foo-1.0-0.tar.bz2", chars "foo-2.0-0.tar.bz2"]).1.mp h
      exact absurd this (by decide)⟩

/-- C3: a PackageSet that completes finalization with a python entry present
has that entry at index 0 (check_dists only passes when the head is named
python, and move_python_first put one there). -/
theorem c3_python_index_zero (nameD : List Char → List Char) (dep_order : Bool)
    (dists out : List (List Char))
    (hok : finalize_dists nameD dep_order dists = Except.ok out)
    (_hpy : ∃ d ∈ out, nameD d = chars "python") :
    ∃ p rest, out = p :: rest ∧ nameD p = chars "python" := by
  obtain ⟨-, hchk⟩ := finalize_dists_ok nameD dep_order dists out hok
  obtain ⟨d, tl, hcons, -, hname⟩ := check_dists_ok nameD out hchk
  exact ⟨d, tl, hcons, hname⟩

/-- C3 witness: a concrete finalization run in dependency order with a python
entry, ending with python at index 0. -/
theorem c3_python_index_zero_witness :
    (finalize_dists name_dist_spec true
        [chars "foo-1.0-0.tar.bz2", chars "python-3.7.0-0.tar.bz2"]
      = Except.ok [chars "python-3.7.0-0.tar.bz2", chars "foo-1.0-0.tar.bz2"])
    ∧ ∃ p rest,
        [chars "python-3.7.0-0.tar.bz2", chars "foo-1.0-0.tar.bz2"] = p :: rest
        ∧ name_dist_spec p = chars "python" :=
  ⟨rfl,
    c3_python_index_zero name_dist_spec true
      [chars "foo-1.0-0.tar.bz2", chars "python-3.7.0-0.tar.bz2"]
      [chars "python-3.7.0-0.tar.bz2", chars "foo-1.0-0.tar.bz2"] rfl
      ⟨chars "python-3.7.0-0.tar.bz2", by decide, by decide⟩⟩

/-- C7 [amended]: check_dists fails with the empty-set error exactly when the
set is empty; on a non-empty duplicate-free set it passes exactly when the
first element's logical name is python, and fails with the assertion error
exactly when it is not — whether or not a python entry exists elsewhere in the
set (the source asserts name_dist(dists[0]) == 'python' unconditionally). -/
theorem c7_check_dists_amended (nameD : List Char → List Char)
    (dists : List (List Char)) :
    (check_dists nameD dists = Except.error CheckDistsError.no_packages
      ↔ dists = [])
    ∧ (∀ d rest, dists = d :: rest → (dists.map nameD).Nodup →
        ((check_dists nameD dists = Except.ok () ↔ nameD d = chars "python")
        ∧ (check_dists nameD dists
              = Except.error CheckDistsError.python_first_assertion
            ↔ ¬ nameD d = chars "python"))) := by
  constructor
  · cases dists with
    | nil => simp [check_dists]
    | cons d tl =>
      constructor
      · intro h
        exfalso
        rcases hcd : check_duplicates nameD (d :: tl) with p | u
        · rcases p with ⟨n, fs⟩
          rw [check_dists_cons_dup nameD d tl n fs hcd] at h
          simp at h
        · cases u
          rw [check_dists_cons_ok nameD d tl hcd] at h
          by_cases hn : (nameD d == chars "python") = true
          · rw [if_pos hn] at h; simp at h
          · rw [if_neg hn] at h; simp at h
      · intro h
        simp at h
  · intro d rest hcons hnodup
    subst hcons
    have hcd : check_duplicates nameD (d :: rest) = Except.ok () :=
      (check_duplicates_ok_iff nameD (d :: rest)).mpr hnodup
    rw [check_dists_cons_ok nameD d rest hcd]
    by_cases hn : (nameD d == chars "python") = true
    · have hname := beq_iff_eq.mp hn
      rw [if_pos hn]
      simp [hname]
    · have hname : ¬ nameD d = chars "python" := fun he => hn (beq_iff_eq.mpr he)
      rw [if_neg hn]
      simp [hname]

/-- C7 witness: the amended characterization at a concrete one-element set
whose head is python, and at the empty set. -/
theorem c7_check_dists_witness :
    (check_dists name_dist_spec ([] : List (List Char))
        = Except.error CheckDistsError.no_packages ↔ ([] : List (List Char)) = [])
    ∧ (check_dists name_dist_spec [chars "python-3.7.0-0.tar.bz2"] = Except.ok ()
        ↔ name_dist_spec (chars "python-3.7.0-0.tar.bz2") = chars "python") :=
  ⟨(c7_check_dists_amended name_dist_spec []).1,
    ((c7_check_dists_amended name_dist_spec [chars "python-3.7.0-0.tar.bz2"]).2
      (chars "python-3.7.0-0.tar.bz2") [] rfl (by decide)).1⟩

/-- C7 counterexample: a non-empty, duplicate-free set containing no python
entry — the claim says it passes finalization, but check_dists fails with the
unconditional python-first assertion. -/
theorem c7_check_dists_counterexample :
    check_dists name_dist_spec [chars "foo-1.0-0.tar.bz2"]
        = Except.error CheckDistsError.python_first_assertion
    ∧ ¬ ∃ d ∈ [chars "foo-1.0-0.tar.bz2"], name_dist_spec d = chars "python" :=
  ⟨rfl, by decide⟩

/- ## C5: checksum precedence and cache hits in fetch -/

/-- A Dist whose fetch_one outcome is not fetch_pkg is never passed to the
fetch capability anywhere in the loop. -/
theorem fetch_loop_not_fetched (index urlIndex : List Char → Option PkgInfo)
    (urls md5s cacheHash : List Char → Option (List Char)) (d : List Char)
    (hno : ∀ r, fetch_one index urlIndex urls md5s cacheHash d
        ≠ FetchOutcome.fetch_pkg r) :
    ∀ dists, d ∉ (fetch_loop index urlIndex urls md5s cacheHash dists).fetched := by
  intro dists
  induction dists with
  | nil => simp [fetch_loop]
  | cons a ds ih =>
    rcases hout : fetch_one index urlIndex urls md5s cacheHash a with _ | _ | r | r
    · simp [fetch_loop, hout]
    · simp [fetch_loop, hout]
    · simp only [fetch_loop, hout]
      exact ih
    · simp only [fetch_loop, hout, List.mem_cons]
      intro hmem
      rcases hmem with rfl | hmem
      · exact hno r hout
      · exact ih hmem

/-- C5: an inline checksum disagreeing with the authoritative record aborts
the loop with the mismatch error and that Dist is never fetched; a cached
artifact whose hash matches the authoritative checksum (and whose inline
checksum, if any, agrees) is a cache hit and is likewise never fetched. -/
theorem c5_checksum_and_cache (index urlIndex : List Char → Option PkgInfo)
    (urls md5s cacheHash : List Char → Option (List Char))
    (d : List Char) (pi : PkgInfo)
    (hauth : authoritative index urlIndex urls d = some pi) :
    (∀ m, md5s d = some m → m ≠ pi.md5 →
      fetch_one index urlIndex urls md5s cacheHash d = FetchOutcome.checksum_mismatch
      ∧ ∀ dists, d ∉ (fetch_loop index urlIndex urls md5s cacheHash dists).fetched)
    ∧ ((md5s d = none ∨ md5s d = some pi.md5) → cacheHash d = some pi.md5 →
      fetch_one index urlIndex urls md5s cacheHash d
        = FetchOutcome.cache_hit (normalized_channel pi.channel ++ d, pi.md5)
      ∧ ∀ dists, d ∉ (fetch_loop index urlIndex urls md5s cacheHash dists).fetched) := by
  constructor
  · intro m hm hne
    have hone : fetch_one index urlIndex urls md5s cacheHash d
        = FetchOutcome.checksum_mismatch := by
      unfold fetch_one
      rw [hauth, hm]
      simp [hne]
    exact ⟨hone, fetch_loop_not_fetched index urlIndex urls md5s cacheHash d
      (fun r hr => by rw [hone] at hr; exact absurd hr (by simp)) ⟩
  · intro hm hcache
    have hone : fetch_one index urlIndex urls md5s cacheHash d
        = FetchOutcome.cache_hit (normalized_channel pi.channel ++ d, pi.md5) := by
      unfold fetch_one
      rw [hauth]
      rcases hm with h | h
      · rw [h]
        simp [hcache]
      · rw [h]
        simp [hcache]
    exact ⟨hone, fetch_loop_not_fetched index urlIndex urls md5s cacheHash d
      (fun r hr => by rw [hone] at hr; exact absurd hr (by simp)) ⟩

/-- C1 counterexample: at the spec-modelled template with E = T = 0 — within
every digit width the format supports — the closing assertion of get_header
evaluates to false (the unpadded total-size substitution shrank the header
after the total had been computed), and the assembled installer's byte length
differs from the embedded total-size value. -/
theorem c1_total_size_assert_counterexample :
    shar_assert_check header_template_spec 0 0 = false
    ∧ (assemble (sharD5 header_template_spec 0 0) [] []).length
        ≠ total_size header_template_spec 0 0 := by
  exact ⟨by decide, by decide⟩

/-- C5 witness: the concrete fixtures — a disagreeing inline checksum aborts
with the mismatch before any fetch, and a matching cached file is a cache hit
and is never fetched. -/
theorem c5_checksum_and_cache_witness :
    (fetch_one index_fix lookup_none_fix str_none_fix md5s_bad_fix cache_good_fix
        (chars "foo-1.0-0.tar.bz2") = FetchOutcome.checksum_mismatch
      ∧ (chars "foo-1.0-0.tar.bz2") ∉ (fetch_loop index_fix lookup_none_fix
          str_none_fix md5s_bad_fix cache_good_fix
          [chars "foo-1.0-0.tar.bz2"]).fetched)
    ∧ (fetch_one index_fix lookup_none_fix str_none_fix str_none_fix cache_good_fix
        (chars "foo-1.0-0.tar.bz2")
        = FetchOutcome.cache_hit
            (normalized_channel (chars "https://c/linux-64")
              ++ chars "foo-1.0-0.tar.bz2", chars "aaaa")
      ∧ (chars "foo-1.0-0.tar.bz2") ∉ (fetch_loop index_fix lookup_none_fix
          str_none_fix str_none_fix cache_good_fix
          [chars "foo-1.0-0.tar.bz2"]).fetched) := by
  constructor
  · have h := (c5_checksum_and_cache index_fix lookup_none_fix str_none_fix
      md5s_bad_fix cache_good_fix (chars "foo-1.0-0.tar.bz2")
      ⟨chars "https://c/linux-64", chars "aaaa"⟩ rfl).1
      (chars "bbbb") rfl (by decide)
    exact ⟨h.1, h.2 [chars "foo-1.0-0.tar.bz2"]⟩
  · have h := (c5_checksum_and_cache index_fix lookup_none_fix str_none_fix
      str_none_fix cache_good_fix (chars "foo-1.0-0.tar.bz2")
      ⟨chars "https://c/linux-64", chars "aaaa"⟩ rfl).2
      (Or.inl rfl) rfl
    exact ⟨h.1, h.2 [chars "foo-1.0-0.tar.bz2"]⟩

/- ## C6, C10: the explicit package-line grammar -/

theorem matchMd5Tail_some (t : List Char) (md5 : Option (List Char))
    (h : matchMd5Tail t = some md5) :
    ∀ m, md5 = some m → m.length = 32 ∧ m.all isHexLower = true := by
  intro m hm
  subst hm
  cases t with
  | nil => simp [matchMd5Tail] at h
  | cons c rest =>
    simp only [matchMd5Tail] at h
    by_cases hc : c = '#'
    · rw [if_pos hc] at h
      by_cases hv : (rest.length == 32 && rest.all isHexLower) = true
      · rw [if_pos hv] at h
        simp only [Option.some.injEq] at h
        rw [Bool.and_eq_true] at hv
        obtain ⟨h1, h2⟩ := hv
        rw [← h]
        exact ⟨beq_iff_eq.mp h1, h2⟩
      · rw [if_neg hv] at h
        simp at h
    · rw [if_neg hc] at h
      simp at h

theorem matchFnTail_some (t fn : List Char) (md5 : Option (List Char))
    (h : matchFnTail t = some (fn, md5)) :
    fn ≠ [] ∧ fn.all isFnChar = true
    ∧ (∀ m, md5 = some m → m.length = 32 ∧ m.all isHexLower = true) := by
  unfold matchFnTail at h
  by_cases he : (t.takeWhile isFnChar).isEmpty = true
  · rw [if_pos he] at h
    simp at h
  · rw [if_neg he] at h
    rcases hmd : matchMd5Tail (t.drop (t.takeWhile isFnChar).length) with _ | md50
    · rw [hmd] at h
      simp at h
    · rw [hmd] at h
      simp only [Option.map_some', Option.some.injEq, Prod.mk.injEq] at h
      obtain ⟨hfn, hmd5⟩ := h
      subst hfn
      subst hmd5
      refine ⟨?_, List.all_takeWhile, matchMd5Tail_some _ _ hmd⟩
      intro hnil
      rw [hnil] at he
      simp at he

theorem url_pat_match_some (s : List Char) (u : Option (List Char))
    (fn : List Char) (md5 : Option (List Char))
    (h : url_pat_match s = some (u, fn, md5)) :
    fn ≠ [] ∧ fn.all isFnChar = true
    ∧ (∀ url, u = some url → url.getLast? = some '/')
    ∧ (∀ m, md5 = some m → m.length = 32 ∧ m.all isHexLower = true) := by
  unfold url_pat_match at h
  rcases hs : splitLastChar? '/' s with _ | ⟨before, aft⟩
  · rw [hs] at h
    rcases hmf : matchFnTail s with _ | ⟨fn0, md50⟩
    · rw [hmf] at h; simp at h
    · rw [hmf] at h
      simp only [Option.map_some', Option.some.injEq, Prod.mk.injEq] at h
      obtain ⟨hu, hfn, hmd⟩ := h
      subst hu; subst hfn; subst hmd
      obtain ⟨h1, h2, h3⟩ := matchFnTail_some s fn0 md50 hmf
      exact ⟨h1, h2, fun url hurl => by simp at hurl, h3⟩
  · rw [hs] at h
    dsimp only at h
    by_cases hok : (2 ≤ (before ++ ['/']).length
        && (before ++ ['/']).all (fun c => !isWs c)) = true
    · rw [if_pos hok] at h
      rcases hmf : matchFnTail aft with _ | ⟨fn0, md50⟩
      · rw [hmf] at h; simp at h
      · rw [hmf] at h
        simp only [Option.map_some', Option.some.injEq, Prod.mk.injEq] at h
        obtain ⟨hu, hfn, hmd⟩ := h
        subst hfn; subst hmd
        obtain ⟨h1, h2, h3⟩ := matchFnTail_some aft fn0 md50 hmf
        refine ⟨h1, h2, ?_, h3⟩
        intro url hurl
        rw [← hu] at hurl
        simp only [Option.some.injEq] at hurl
        rw [← hurl]
        exact List.getLast?_concat before
    · rw [if_neg hok] at h
      simp at h

theorem map_eqNorm_no_eq (fn0 : List Char) : '=' ∉ fn0.map eqNorm := by
  intro hmem
  obtain ⟨a, _, ha⟩ := List.mem_map.mp hmem
  unfold eqNorm at ha
  by_cases h2 : a = '='
  · rw [if_pos h2] at ha
    exact absurd ha (by decide)
  · rw [if_neg h2] at ha
    exact h2 ha

theorem normalize_fn_suffix (fn0 : List Char) :
    (chars ".tar.bz2").isSuffixOf (normalize_fn fn0) = true := by
  unfold normalize_fn
  by_cases h : (chars ".tar.bz2").isSuffixOf (fn0.map eqNorm) = true
  · rw [if_pos h]
    exact h
  · rw [if_neg h]
    exact List.isSuffixOf_iff_suffix.mpr (List.suffix_append _ _)

theorem normalize_fn_no_eq (fn0 : List Char) : '=' ∉ normalize_fn fn0 := by
  unfold normalize_fn
  by_cases h : (chars ".tar.bz2").isSuffixOf (fn0.map eqNorm) = true
  · rw [if_pos h]
    exact map_eqNorm_no_eq fn0
  · rw [if_neg h]
    intro hmem
    rcases List.mem_append.mp hmem with hm | hm
    · exact map_eqNorm_no_eq fn0 hm
    · exact absurd hm (by decide)

/-- C6: blank lines and lines opening with a comment marker are ignored; the
two spec examples parse to the stated url, filename and checksum; and every
parsed entry has a filename normalized to '-' separators with the .tar.bz2
default extension applied, a url ending in '/', and a 32-digit lowercase-hex
checksum when one was given. -/
theorem c6_parse_packages_grammar :
    (parse_package_line
        (chars "https://h/p/foo-1.0-0.tar.bz2#abcdef0123456789abcdef0123456789")
      = ParsedLine.entry (some (chars "https://h/p/")) (chars "foo-1.0-0.tar.bz2")
          (some (chars "abcdef0123456789abcdef0123456789")))
    ∧ (parse_package_line (chars "foo=1.0=0")
        = ParsedLine.entry none (chars "foo-1.0-0.tar.bz2") none)
    ∧ (∀ line, pyStrip line = [] → parse_package_line line = ParsedLine.skip)
    ∧ (∀ line c rest, pyStrip line = c :: rest → c = '#' ∨ c = '@' →
        parse_package_line line = ParsedLine.skip)
    ∧ (∀ line u fn md5, parse_package_line line = ParsedLine.entry u fn md5 →
        (chars ".tar.bz2").isSuffixOf fn = true
        ∧ '=' ∉ fn
        ∧ (∀ url, u = some url → url.getLast? = some '/')
        ∧ (∀ m, md5 = some m → m.length = 32 ∧ m.all isHexLower = true)) := by
  refine ⟨by decide, by decide, ?_, ?_, ?_⟩
  · intro line hline
    unfold parse_package_line
    rw [hline]
  · intro line c rest hline hc
    unfold parse_package_line
    rw [hline]
    rcases hc with rfl | rfl
    · simp
    · simp
  · intro line u fn md5 h
    unfold parse_package_line at h
    rcases hst : pyStrip line with _ | ⟨c, rest⟩
    · rw [hst] at h
      simp at h
    · rw [hst] at h
      dsimp only at h
      by_cases hcm : (c = '#' || c = '@') = true
      · rw [if_pos hcm] at h
        simp at h
      · rw [if_neg hcm] at h
        rcases hm : url_pat_match (c :: rest) with _ | ⟨u0, fn0, md50⟩
        · rw [hm] at h
          simp at h
        · rw [hm] at h
          simp only [ParsedLine.entry.injEq] at h
          obtain ⟨hu, hfn, hmd⟩ := h
          obtain ⟨-, -, hurl, hhex⟩ := url_pat_match_some (c :: rest) u0 fn0 md50 hm
          refine ⟨?_, ?_, ?_, ?_⟩
          · rw [← hfn]
            exact normalize_fn_suffix fn0
          · rw [← hfn]
            exact normalize_fn_no_eq fn0
          · intro url hurl2
            exact hurl url (by rw [hu]; exact hurl2)
          · intro m hm2
            exact hhex m (by rw [hmd]; exact hm2)

/-- C6 witness: the line-skipping clauses at concrete blank and comment
lines. -/
theorem c6_parse_packages_grammar_witness :
    parse_package_line (chars "   ") = ParsedLine.skip
    ∧ parse_package_line (chars "# a comment") = ParsedLine.skip :=
  ⟨c6_parse_packages_grammar.2.2.1 (chars "   ") (by decide),
    c6_parse_packages_grammar.2.2.2.1 (chars "# a comment") '#' (chars " a comment")
      (by decide) (Or.inl rfl)⟩

/-- C10: a filename token without the exact .tar.bz2 suffix — including one
already carrying the .conda extension — gets .tar.bz2 appended after '='
normalization, so foo-1.0-0.conda becomes foo-1.0-0.conda.tar.bz2 rather than
staying a .conda artifact. -/
theorem c10_extension_default_appended :
    (parse_package_line (chars "foo-1.0-0.conda")
      = ParsedLine.entry none (chars "foo-1.0-0.conda.tar.bz2") none)
    ∧ (∀ fn0, (chars ".tar.bz2").isSuffixOf (fn0.map eqNorm) = false →
        normalize_fn fn0 = fn0.map eqNorm ++ chars ".tar.bz2") := by
  constructor
  · decide
  · intro fn0 h
    unfold normalize_fn
    rw [if_neg (by simp [h])]

/-- C10 witness: the default-extension clause at the concrete .conda name. -/
theorem c10_extension_default_appended_witness :
    (chars ".tar.bz2").isSuffixOf ((chars "foo-1.0-0.conda").map eqNorm) = false
    ∧ normalize_fn (chars "foo-1.0-0.conda")
        = (chars "foo-1.0-0.conda").map eqNorm ++ chars ".tar.bz2" :=
  ⟨by decide, c10_extension_default_appended.2 (chars "foo-1.0-0.conda") (by decide)⟩

/- ## C8: the noarch repodata guarantee -/

theorem map_fst_update_point (acc : List (List Char × FnDict)) (k : List Char)
    (v : FnDict) :
    (acc.map (fun p => if p.1 == k then (k, v) else p)).map Prod.fst
      = acc.map Prod.fst := by
  induction acc with
  | nil => rfl
  | cons p ps ih =>
    simp only [List.map_cons]
    by_cases hp : (p.1 == k) = true
    · rw [if_pos hp, ih]
      simp [beq_iff_eq.mp hp]
    · rw [if_neg hp, ih]

theorem mem_updateA_fst (acc : List (List Char × FnDict)) (k sd : List Char)
    (v : FnDict) :
    sd ∈ (updateA acc k v).map Prod.fst ↔ sd ∈ acc.map Prod.fst ∨ sd = k := by
  unfold updateA
  by_cases h : acc.any (fun p => p.1 == k) = true
  · rw [if_pos h, map_fst_update_point]
    obtain ⟨p, hp, hpk⟩ := List.any_eq_true.mp h
    have hkmem : k ∈ acc.map Prod.fst :=
      List.mem_map.mpr ⟨p, hp, beq_iff_eq.mp hpk⟩
    constructor
    · exact Or.inl
    · rintro (h' | rfl)
      · exact h'
      · exact hkmem
  · rw [if_neg h]
    simp [List.mem_append]

theorem mem_addLocalUrl_fst (acc : List (List Char × FnDict)) (url sd : List Char) :
    sd ∈ (addLocalUrl acc url).map Prod.fst ↔
      sd ∈ acc.map Prod.fst
      ∨ (isFileUrl url = true ∧ ∃ a c, rsplit2 url = some (a, sd, c)) := by
  unfold addLocalUrl
  by_cases hf : isFileUrl url = true
  · rw [if_pos hf]
    rcases hr : rsplit2 url with _ | ⟨a0, sd0, c0⟩
    · simp [hr]
    · dsimp only
      rw [mem_updateA_fst]
      constructor
      · rintro (h' | rfl)
        · exact Or.inl h'
        · exact Or.inr ⟨hf, a0, c0, rfl⟩
      · rintro (h' | ⟨-, a, c, hr'⟩)
        · exact Or.inl h'
        · simp only [Option.some.injEq, Prod.mk.injEq] at hr'
          exact Or.inr hr'.2.1.symm
  · rw [if_neg hf]
    simp [hf]

theorem mem_foldl_addLocalUrl_fst (urlList : List (List Char)) :
    ∀ (acc : List (List Char × FnDict)) (sd : List Char),
      sd ∈ (urlList.foldl addLocalUrl acc).map Prod.fst ↔
        sd ∈ acc.map Prod.fst
        ∨ ∃ url ∈ urlList, isFileUrl url = true
            ∧ ∃ a c, rsplit2 url = some (a, sd, c) := by
  induction urlList with
  | nil => simp
  | cons u us ih =>
    intro acc sd
    rw [List.foldl_cons, ih, mem_addLocalUrl_fst]
    constructor
    · rintro ((h' | h') | h')
      · exact Or.inl h'
      · exact Or.inr ⟨u, List.mem_cons_self u us, h'⟩
      · obtain ⟨url, hmem, hrest⟩ := h'
        exact Or.inr ⟨url, List.mem_cons_of_mem u hmem, hrest⟩
    · rintro (h' | ⟨url, hmem, hrest⟩)
      · exact Or.inl (Or.inl h')
      · rcases List.mem_cons.mp hmem with rfl | hmem'
        · exact Or.inl (Or.inr hrest)
        · exact Or.inr ⟨url, hmem', hrest⟩

theorem mem_local_subdir_repodata_fst (urlList : List (List Char)) (sd : List Char) :
    sd ∈ (local_subdir_repodata urlList).map Prod.fst ↔
      ∃ url ∈ urlList, isFileUrl url = true ∧ ∃ a c, rsplit2 url = some (a, sd, c) := by
  unfold local_subdir_repodata
  rw [mem_foldl_addLocalUrl_fst]
  simp

/-- C8: the master tarball always carries a noarch repodata document — an
empty one is synthesized when no locally sourced artifact lives in noarch —
while any other subdir gets a repodata document exactly when some file:// url
in info['_urls'] names it as its subdir. -/
theorem c8_noarch_repodata (urlList : List (List Char)) :
    (chars "noarch") ∈ (repodata_docs urlList).map Prod.fst
    ∧ ((chars "noarch") ∉ (local_subdir_repodata urlList).map Prod.fst →
        ((chars "noarch"), (⟨[], []⟩ : FnDict)) ∈ repodata_docs urlList)
    ∧ (∀ sd, sd ≠ chars "noarch" →
        (sd ∈ (repodata_docs urlList).map Prod.fst ↔
          ∃ url ∈ urlList, isFileUrl url = true
            ∧ ∃ a c, rsplit2 url = some (a, sd, c))) := by
  unfold repodata_docs
  by_cases h : ((local_subdir_repodata urlList).map Prod.fst).contains
      (chars "noarch") = true
  · rw [if_pos h]
    have hmem : (chars "noarch") ∈ (local_subdir_repodata urlList).map Prod.fst :=
      List.elem_iff.mp h
    refine ⟨hmem, fun hn => absurd hmem hn, ?_⟩
    intro sd _
    exact mem_local_subdir_repodata_fst urlList sd
  · rw [if_neg h]
    have hnmem : (chars "noarch") ∉ (local_subdir_repodata urlList).map Prod.fst :=
      fun hmem => h (List.elem_iff.mpr hmem)
    refine ⟨?_, ?_, ?_⟩
    · rw [List.map_append]
      exact List.mem_append_right _ (by simp)
    · intro _
      exact List.mem_append_right _ (by simp)
    · intro sd hsd
      rw [List.map_append, List.mem_append]
      constructor
      · rintro (hmem | hmem)
        · exact (mem_local_subdir_repodata_fst urlList sd).mp hmem
        · simp at hmem
          exact absurd hmem hsd
      · intro hx
        exact Or.inl ((mem_local_subdir_repodata_fst urlList sd).mpr hx)

/-- C8 witness: a single local linux-64 artifact — its subdir document exists,
the noarch document is synthesized empty, and an absent subdir has none. -/
theorem c8_noarch_repodata_witness :
    (chars "noarch")
        ∈ (repodata_docs [chars "file://p/linux-64/a-1.0-0.tar.bz2"]).map Prod.fst
    ∧ ((chars "noarch"), (⟨[], []⟩ : FnDict))
        ∈ repodata_docs [chars "file://p/linux-64/a-1.0-0.tar.bz2"]
    ∧ ((chars "linux-64")
        ∈ (repodata_docs [chars "file://p/linux-64/a-1.0-0.tar.bz2"]).map Prod.fst ↔
        ∃ url ∈ [chars "file://p/linux-64/a-1.0-0.tar.bz2"], isFileUrl url = true
          ∧ ∃ a c, rsplit2 url = some (a, chars "linux-64", c)) := by
  have h := c8_noarch_repodata [chars "file://p/linux-64/a-1.0-0.tar.bz2"]
  exact ⟨h.1, h.2.1 (by decide), h.2.2 (chars "linux-64") (by decide)⟩

/- ## C9: scratch isolation of the assembly phases -/

theorem out_after_append (l1 l2 : List CStep) (st : Option (List Nat)) :
    out_after (l1 ++ l2) st = out_after l2 (out_after l1 st) := by
  induction l1 generalizing st with
  | nil => rfl
  | cons s rest ih =>
    simp only [List.cons_append, out_after]
    exact ih (out_step st s)

theorem out_after_scratch_replicate (m : Nat) (st : Option (List Nat)) :
    out_after (List.replicate m CStep.scratch) st = st := by
  induction m with
  | zero => rfl
  | succ m ih =>
    rw [List.replicate_succ]
    exact ih

theorem out_after_writeOuts (chunks : List (List Nat)) :
    ∀ c, out_after (chunks.map CStep.writeOut) (some c)
      = some (chunks.foldl (fun acc b => acc ++ b) c) := by
  induction chunks with
  | nil => intro c; rfl
  | cons b bs ih =>
    intro c
    simp only [List.map_cons, List.foldl_cons, out_after]
    exact ih (c ++ b)

/-- C9 [amended]: every failure during the scratch-side phases — staging,
master tarball, header rendering and its assertion, which all precede the
opening of the output path in create — leaves nothing at the final output
path; a completed run leaves exactly header ++ chunks there.  The
concatenation phase itself writes directly to the output path (see the
counterexample: a mid-write failure leaves a partial installer). -/
theorem c9_scratch_isolation_amended (nScratch : Nat) (header : List Nat)
    (chunks : List (List Nat)) (k : Nat) (hk : k ≤ nScratch) :
    out_after_prefix nScratch header chunks k = none
    ∧ out_after (create_steps nScratch header chunks) none
        = some (chunks.foldl (fun acc b => acc ++ b) header) := by
  constructor
  · unfold out_after_prefix create_steps
    rw [List.append_assoc, List.append_assoc,
      List.take_append_of_le_length (by simpa using hk), List.take_replicate]
    exact out_after_scratch_replicate _ none
  · unfold create_steps
    rw [out_after_append, out_after_append, out_after_append,
      out_after_scratch_replicate]
    have h2 : out_after [CStep.openOut, CStep.writeOut header] none
        = some header := by
      simp [out_after, out_step]
    rw [h2, out_after_writeOuts]
    rfl

/-- C9 witness: the amended statement at a concrete three-step payload. -/
theorem c9_scratch_isolation_witness :
    ((1 : Nat) ≤ 2)
    ∧ out_after_prefix 2 [7] [[8], [9]] 1 = none
    ∧ out_after (create_steps 2 [7] [[8], [9]]) none
        = some ([[8], [9]].foldl (fun acc b => acc ++ b) [7]) := by
  have h := c9_scratch_isolation_amended 2 [7] [[8], [9]] 1 (by decide)
  exact ⟨by decide, h.1, h.2⟩

/-- C9 counterexample: a build whose failure interrupts the concatenation
phase after the header write (prefix of 3 steps out of a 1-scratch-step run)
leaves a partial, non-empty, incomplete installer visible at the final output
path — the claim that no failing build ever leaves a partial installer there
is false. -/
theorem c9_scratch_isolation_counterexample :
    out_after_prefix 1 [7] [[8], [9]] 3 = some [7]
    ∧ some ([7] : List Nat) ≠ none
    ∧ ([7] : List Nat) ≠ [7, 8, 9]
    ∧ out_after (create_steps 1 [7] [[8], [9]]) none = some [7, 8, 9] := by
  exact ⟨by decide, by decide, by decide, by decide⟩
